import Mathlib

/-!
Shallow embedding of the card interaction & layout engine of `src/gameplay.rs`.

Conventions:
* `f32` values are embedded as exact rationals (`ℚ`); the decimal literals of
  the source (`0.40`, `0.08`, `0.001`, ...) become the corresponding rationals.
* Bevy `Entity` handles are embedded as `Nat`.
* ECS components (`InHand`, `Dragging`, the `CardZone` marker) become `Option`
  fields of a per-card record `GameCard`; a `none` field is an absent component.
* `Vec2.length () > 0.1` (which uses a square root) is embedded as the
  equivalent comparison of the squared length with `0.01`.
-/

/-- Two-dimensional vector, embedding Bevy's `Vec2` over exact rationals. -/
structure Vec2 where
  x : ℚ
  y : ℚ
deriving DecidableEq, Repr, Inhabited

/-- Axis-aligned box test shared by the hover, drag and deck-click systems of
`gameplay.rs`: the point `p` lies within `center ± halfSize` on both axes. -/
def inBox (p center halfSize : Vec2) : Bool :=
  decide (center.x - halfSize.x ≤ p.x) && decide (p.x ≤ center.x + halfSize.x) &&
  decide (center.y - halfSize.y ≤ p.y) && decide (p.y ≤ center.y + halfSize.y)

/-- Immutable card identity (`CardData`): a name. -/
structure CardData where
  name : String
deriving DecidableEq, Repr, Inhabited

/-- `GameplayState` (`gameplay.rs` lines 119-126): deck of card data
(pop-from-end = top), ordered hand of entity handles, and two 5-entry play
area arrays, embedded as lists of length 5 of optional handles. -/
structure GameplayState where
  deck : List CardData
  player_hand : List Nat
  player_play_area : List (Option Nat)
  opponent_play_area : List (Option Nat)
  opponent_hand : List Nat
deriving DecidableEq, Repr

/-- `GameplayState::new`: a deck of 10 cards named `Card 1` .. `Card 10`
(pushed in order, so `Card 10` is on top), everything else empty. -/
def GameplayState.new : GameplayState :=
  { deck := (List.range 10).map (fun i => ⟨"Card " ++ toString (i + 1)⟩)
    player_hand := []
    player_play_area := List.replicate 5 none
    opponent_play_area := List.replicate 5 none
    opponent_hand := [] }

/-- `GameplayState::draw_card`: `self.deck.pop()` — returns the last element
(top of the stack) and the state with it removed; `none` on an empty deck. -/
def GameplayState.draw_card (gs : GameplayState) : Option CardData × GameplayState :=
  (gs.deck.getLast?, { gs with deck := gs.deck.dropLast })

/-- `GameplayState::add_to_hand`: push the handle onto the hand list. -/
def GameplayState.add_to_hand (gs : GameplayState) (e : Nat) : GameplayState :=
  { gs with player_hand := gs.player_hand ++ [e] }

/-- `GameplayState::remove_from_hand`: `retain(|&x| x != entity)`. -/
def GameplayState.remove_from_hand (gs : GameplayState) (e : Nat) : GameplayState :=
  { gs with player_hand := gs.player_hand.filter (fun x => x != e) }

/-- `GameplayState::play_card_to_slot`: if `slot < 5` and the slot is free,
remove the card from the hand and place it in the slot, returning `true`;
otherwise return `false` and leave the state unchanged. -/
def GameplayState.play_card_to_slot (gs : GameplayState) (e : Nat) (slot : Nat) :
    Bool × GameplayState :=
  if decide (slot < 5) && (gs.player_play_area.getD slot none).isNone then
    (true, { gs.remove_from_hand e with
             player_play_area := gs.player_play_area.set slot (some e) })
  else
    (false, gs)

/-- `GameplayState::is_slot_occupied`: `slot < 5 && self.player_play_area[slot].is_some()`. -/
def GameplayState.is_slot_occupied (gs : GameplayState) (slot : Nat) : Bool :=
  decide (slot < 5) && (gs.player_play_area.getD slot none).isSome

/-- The `CardZone` marker component enum of `gameplay.rs` (lines 65-75). -/
inductive CardZone where
  | playerHand
  | playerPlayArea (slot : Nat)
  | opponentPlayArea (slot : Nat)
  | opponentHand
  | bottomLeft
  | bottomRight
  | topLeft
  | topRight
deriving DecidableEq, Repr, Inhabited

/-- The `Dragging` component: offset from card center to mouse, original zone. -/
structure DragInfo where
  offset : Vec2
  original_zone : CardZone
deriving DecidableEq, Repr, Inhabited

/-- One card entity as the gameplay systems see it: the `Card` component
fields, the `Transform` (position, z, uniform scale, z-rotation angle), the
sprite custom size, and the optional `InHand`, `Dragging` and `CardZone`
components. -/
structure GameCard where
  entity : Nat
  is_hovered : Bool
  target_scale : ℚ
  target_position : Vec2
  pos : Vec2
  z : ℚ
  scale : ℚ
  rotation : ℚ
  size : Vec2
  inHand : Option Nat
  dragging : Option DragInfo
  zone : Option CardZone
deriving DecidableEq, Repr

instance : Inhabited GameCard :=
  ⟨⟨0, false, 1, default, default, 0, 1, 0, default, none, none, none⟩⟩

/-- A card slot entity: the `CardSlot` component plus its transform position
and sprite size; `id` is its entity handle. -/
structure SlotEnt where
  id : Nat
  zone : CardZone
  occupied : Bool
  pos : Vec2
  size : Vec2
deriving DecidableEq, Repr

/-- Half extent of a card's hit box: `sprite.custom_size * transform.scale / 2`
(`gameplay.rs` line 533). -/
def candHalfSize (c : GameCard) : Vec2 :=
  ⟨c.size.x * c.scale / 2, c.size.y * c.scale / 2⟩

/-- One step of the topmost-card fold of `card_hover_system` (lines 524-548):
skip dragging cards; a card whose box contains the cursor replaces the
accumulator iff the accumulator is empty or the card's z is strictly greater. -/
def hitStep (p : Vec2) (acc : Option (Nat × ℚ)) (c : GameCard) : Option (Nat × ℚ) :=
  if c.dragging.isSome then acc
  else if inBox p c.pos (candHalfSize c) then
    match acc with
    | none => some (c.entity, c.z)
    | some (e₀, z₀) => if z₀ < c.z then some (c.entity, c.z) else some (e₀, z₀)
  else acc

/-- The hit-test of `card_hover_system`: no cursor means no candidate,
otherwise fold `hitStep` over the candidate cards in iteration order. -/
def topmostCard (cursor : Option Vec2) (cards : List GameCard) : Option (Nat × ℚ) :=
  match cursor with
  | none => none
  | some p => cards.foldl (hitStep p) none

/-- The hover-update loop of `card_hover_system` (lines 551-577): dragging
cards keep their state; otherwise `is_hovered` becomes "I am the topmost
card", and `target_scale` is updated on a state change. -/
def updateHoverCard (hover_scale : ℚ) (top : Option (Nat × ℚ)) (c : GameCard) : GameCard :=
  if c.dragging.isSome then c
  else
    let should_hover : Bool :=
      match top with
      | some (e, _) => e == c.entity
      | none => false
    if should_hover != c.is_hovered then
      { c with is_hovered := should_hover
               target_scale := if should_hover then hover_scale else 1 }
    else c

/-- `card_hover_system`: compute the topmost card under the cursor, then
update every card's hover state against it. -/
def card_hover_system (hover_scale : ℚ) (cursor : Option Vec2) (cards : List GameCard) :
    List GameCard :=
  let top := topmostCard cursor cards
  cards.map (updateHoverCard hover_scale top)

/-- Eligibility for the hover hit test: not dragging and box contains `p`. -/
def hitElig (p : Vec2) (c : GameCard) : Prop :=
  c.dragging.isNone ∧ inBox p c.pos (candHalfSize c) = true

instance (p : Vec2) (c : GameCard) : Decidable (hitElig p c) := by
  unfold hitElig; infer_instance

/-- One step of the topmost-hand-card fold at drag start (`card_drag_system`
lines 604-629): only cards in hand and not already dragging are candidates;
first-seen wins ties, strict z beats the accumulator. Also records the card's
current position for the drag offset. -/
def handTopStep (p : Vec2) (acc : Option (Nat × ℚ × Vec2)) (c : GameCard) :
    Option (Nat × ℚ × Vec2) :=
  if c.dragging.isSome || c.inHand.isNone then acc
  else if inBox p c.pos (candHalfSize c) then
    match acc with
    | none => some (c.entity, c.z, c.pos)
    | some (e₀, z₀, p₀) =>
      if z₀ < c.z then some (c.entity, c.z, c.pos) else some (e₀, z₀, p₀)
  else acc

/-- The drag-start branch of `card_drag_system` (lines 602-640), given a
cursor position on a left-press edge: find the topmost in-hand card under the
cursor and insert a `Dragging` component on it, recording
`offset = cursor - card_center` and `original_zone = PlayerHand`.
The `InHand` component is left in place. -/
def dragStart (p : Vec2) (cards : List GameCard) : List GameCard :=
  match cards.foldl (handTopStep p) none with
  | some (e, _, cardPos) =>
    cards.map (fun c =>
      if c.entity = e then
        { c with dragging := some ⟨⟨p.x - cardPos.x, p.y - cardPos.y⟩, CardZone.playerHand⟩ }
      else c)
  | none => cards

/-- The drop-slot filter of the release branch of `card_drag_system`
(lines 670-701): a slot is a drop target iff its zone is a player play-area
slot, that slot index is not occupied in `GameplayState`, and the slot's box
(half extent `size / 2`) contains the card's current center. -/
def isDropTarget (gs : GameplayState) (cardPos : Vec2) (s : SlotEnt) : Bool :=
  match s.zone with
  | CardZone.playerPlayArea i =>
    !(gs.is_slot_occupied i) && inBox cardPos s.pos ⟨s.size.x / 2, s.size.y / 2⟩
  | _ => false

/-- The slot scan of the release branch: the first drop target in slot
iteration order (`break` on the first hit). -/
def findDropSlot (gs : GameplayState) (slots : List SlotEnt) (cardPos : Vec2) :
    Option SlotEnt :=
  slots.find? (isDropTarget gs cardPos)

/-- Result of handling a left-release edge for one card. -/
structure ReleaseResult where
  gs : GameplayState
  card : GameCard
  slots : List SlotEnt
deriving DecidableEq, Repr

/-- The release branch of `card_drag_system` (lines 658-750) for one card:
if it is dragging, scan the slots for the first valid drop target. On a hit:
remove the card from the hand in `GameplayState`, play it to the slot, set the
card's target position to the slot position, drop the `InHand` component,
overwrite the transform with the default one (identity rotation, zero
translation, unit scale — `Transform { rotation: IDENTITY, ..default() }`),
insert the slot's zone marker, and mark the slot entity occupied. On a miss
the card just stays in hand. In both cases the `Dragging` component is
removed. -/
def releaseCard (gs : GameplayState) (slots : List SlotEnt) (c : GameCard) : ReleaseResult :=
  match c.dragging with
  | none => ⟨gs, c, slots⟩
  | some _ =>
    match findDropSlot gs slots c.pos with
    | some s =>
      match s.zone with
      | CardZone.playerPlayArea slotIndex =>
        let gs1 := gs.remove_from_hand c.entity
        let gs2 := (gs1.play_card_to_slot c.entity slotIndex).2
        let c' := { c with
          target_position := s.pos
          inHand := none
          pos := (⟨0, 0⟩ : Vec2)
          z := 0
          scale := 1
          rotation := 0
          zone := some (CardZone.playerPlayArea slotIndex)
          dragging := none }
        let slots' := slots.map (fun t => if t.id = s.id then { t with occupied := true } else t)
        ⟨gs2, c', slots'⟩
      | _ => ⟨gs, { c with dragging := none }, slots⟩
    | none => ⟨gs, { c with dragging := none }, slots⟩

/-- `card_animation_system` (lines 753-807) for one card, given the animation
speed, the frame delta and the current count of `InHand` components: ease the
uniform scale toward `target_scale` (snap within `0.001`), ease x/y toward
`target_position` (snap within `0.1` of distance; the comparison
`length > 0.1` is embedded as `0.01 < length²`), then set z instantly: hand
cards with `hand_index < hand_count` get `(hand_count - hand_index) * 10`
plus `100` when hovered, hand cards with an out-of-range index are skipped,
and cards not in hand get `z = 0`. The three blocks run in sequence for each
card; they are split here into `animScale`, `animPos` and `animZ`.

The scale easing block (lines 762-770). -/
def animScale (speed dt : ℚ) (c : GameCard) : GameCard :=
  let scale_diff := c.target_scale - c.scale
  if 1 / 1000 < |scale_diff| then
    { c with scale := c.scale + scale_diff * speed * dt }
  else
    { c with scale := c.target_scale }

/-- The x/y easing block of `card_animation_system` (lines 772-782). -/
def animPos (speed dt : ℚ) (c : GameCard) : GameCard :=
  let dx := c.target_position.x - c.pos.x
  let dy := c.target_position.y - c.pos.y
  if 1 / 100 < dx * dx + dy * dy then
    { c with pos := ⟨c.pos.x + dx * speed * dt, c.pos.y + dy * speed * dt⟩ }
  else
    { c with pos := c.target_position }

/-- The z block of `card_animation_system` (lines 784-805). -/
def animZ (hand_count : Nat) (c : GameCard) : GameCard :=
  match c.inHand with
  | some idx =>
    if idx < hand_count then
      let base_z : ℚ := ((hand_count - idx : Nat) : ℚ) * 10
      let target_z := if c.is_hovered then base_z + 100 else base_z
      { c with z := target_z }
    else c
  | none => { c with z := 0 }

/-- The whole `card_animation_system` body for one card: scale easing, then
position easing, then the z update. -/
def animStep (speed dt : ℚ) (hand_count : Nat) (c : GameCard) : GameCard :=
  animZ hand_count (animPos speed dt (animScale speed dt c))

/-- The card spawned by a successful deck click. -/
structure SpawnedCard where
  data : CardData
  hand_index : Nat
  z : ℚ
deriving DecidableEq, Repr

/-- The draw part of `deck_click_system` (lines 851-918), after the click has
hit the deck's box: try to pop a card from the deck; on success spawn a card
with `InHand { hand_index = current hand count }` at
`z = (hand_count - hand_index) * 10` with `hand_count = hand_index + 1`, and
append the new entity to the hand list; on an empty deck nothing changes. -/
def deck_click_draw (gs : GameplayState) (handCount : Nat) (newEntity : Nat) :
    GameplayState × Option SpawnedCard :=
  match gs.draw_card with
  | (some cardData, gs₁) =>
    let hand_index := handCount
    let hand_count := hand_index + 1
    let z : ℚ := ((hand_count - hand_index : Nat) : ℚ) * 10
    (gs₁.add_to_hand newEntity, some ⟨cardData, hand_index, z⟩)
  | (none, _) => (gs, none)

/-- A card as `hand_layout_system` sees it: the `InHand` index, hover and
dragging state, and the written-back target position and rotation. -/
structure HandCard where
  hand_index : Nat
  is_hovered : Bool
  dragging : Bool
  target_position : Vec2
  rotation : ℚ
deriving DecidableEq, Repr, Inhabited

/-- The per-card body of `hand_layout_system` (lines 1029-1068), with the
hand count and the hovered index already computed: dragging cards are
skipped; otherwise the target x (spacing plus hover spread), the parabolic
arc y and the fan rotation are computed from the window height `H`. -/
def layoutHandCard (H : ℚ) (hand_count : Nat) (hovered_index : Option Nat)
    (c : HandCard) : HandCard :=
  if c.dragging then c
  else
    let card_height := H * (40 / 100)
    let card_width := card_height * (2 / 3)
    let card_spacing := card_width * (40 / 100)
    let arc_height := card_height * (10 / 100)
    let rotation_per_card : ℚ := 8 / 100
    let hover_spread := card_width * (30 / 100)
    let card_half_height := card_height / 2
    let bottom_margin := H * (25 / 1000)
    let hand_y := -(H / 2) + bottom_margin + card_half_height
    let total_width := ((hand_count : ℚ) - 1) * card_spacing
    let start_x := -total_width / 2
    let x_offset₀ := (c.hand_index : ℚ) * card_spacing
    let x_offset :=
      match hovered_index with
      | some j =>
        if j < c.hand_index then x_offset₀ + hover_spread
        else if c.hand_index < j then x_offset₀ - hover_spread
        else x_offset₀
      | none => x_offset₀
    let x := start_x + x_offset
    let center_offset := (c.hand_index : ℚ) - ((hand_count : ℚ) - 1) / 2
    let normalized_offset := center_offset / (max ((hand_count : ℚ) / 2) 1)
    let y_offset := arc_height * (1 - normalized_offset * normalized_offset)
    let y := hand_y + y_offset
    let rotation := -center_offset * rotation_per_card
    { c with target_position := ⟨x, y⟩, rotation := rotation }

/-- `hand_layout_system` (lines 994-1069): no-op on an empty hand; otherwise
find the hovered index (first card with `is_hovered` and not dragging) and lay
out every card from the window height and the hand count. -/
def hand_layout_system (H : ℚ) (cards : List HandCard) : List HandCard :=
  if cards.length = 0 then cards
  else
    let hovered_index :=
      (cards.find? (fun c => c.is_hovered && !c.dragging)).map HandCard.hand_index
    cards.map (layoutHandCard H cards.length hovered_index)

/-- `WindowDimensions` (lines 173-177). -/
structure WindowDims where
  width : ℚ
  height : ℚ
deriving DecidableEq, Repr

/-- The `AnchorPosition` component enum (`gameplay.rs` lines 189-197). -/
inductive AnchorPosition where
  | bottomCenter (offset_y : ℚ)
  | topCenter (offset_y : ℚ)
  | topRight (offset_x offset_y : ℚ)
  | topLeft (offset_x offset_y : ℚ)
  | bottomRight (offset_x offset_y : ℚ)
  | bottomLeft (offset_x offset_y : ℚ)
deriving DecidableEq, Repr

/-- An entity carrying an `AnchorPosition` and its transform position. -/
structure AnchoredItem where
  anchor : AnchorPosition
  pos : Vec2
deriving DecidableEq, Repr

/-- Modelled from the spec: the window-resize system that repositions anchored
entities is not present under `src` (only the `AnchorPosition` component and
the sites inserting it are). Spec §4.5: "New position = corner origin
(±half width, ±half height) + offsets", with the corners at `±width/2`,
`±height/2`. `setup_gameplay` (lines 299-317) places the deck the same way:
`deck_x = width/2 + offset_x`, `deck_y = -height/2 + offset_y`. -/
def anchorWorldPos (W H : ℚ) : AnchorPosition → Vec2
  | .bottomCenter oy => ⟨0, -(H / 2) + oy⟩
  | .topCenter oy => ⟨0, H / 2 + oy⟩
  | .topRight ox oy => ⟨W / 2 + ox, H / 2 + oy⟩
  | .topLeft ox oy => ⟨-(W / 2) + ox, H / 2 + oy⟩
  | .bottomRight ox oy => ⟨W / 2 + ox, -(H / 2) + oy⟩
  | .bottomLeft ox oy => ⟨-(W / 2) + ox, -(H / 2) + oy⟩

/-- Modelled from the spec: resize detection, §4.5 — "a resize beyond a
0.1-unit epsilon in either axis". -/
def resizeDetected (old new : WindowDims) : Bool :=
  decide (1 / 10 < |new.width - old.width|) || decide (1 / 10 < |new.height - old.height|)

/-- Modelled from the spec: the anchor-reposition system, §4.5 — on a detected
resize, recompute the absolute position of every anchored element from its
anchor spec at the new window dimensions; otherwise leave them alone. -/
def window_resize_system (old new : WindowDims) (items : List AnchoredItem) :
    List AnchoredItem :=
  if resizeDetected old new then
    items.map (fun it => { it with pos := anchorWorldPos new.width new.height it.anchor })
  else items

/-- Membership of an entity handle in a play-area array. -/
def entityInSlots (arr : List (Option Nat)) (e : Nat) : Prop :=
  some e ∈ arr

instance (arr : List (Option Nat)) (e : Nat) : Decidable (entityInSlots arr e) := by
  unfold entityInSlots; infer_instance

/-- The container-disjointness invariant of spec §3: an entity handle appears
in at most one of the hand lists and play-area arrays of `GameplayState`
(the deck holds `CardData`, not handles, so it cannot alias them). -/
def containersDisjoint (gs : GameplayState) : Prop :=
  ∀ e : Nat,
    (e ∈ gs.player_hand →
      ¬ entityInSlots gs.player_play_area e ∧
      ¬ entityInSlots gs.opponent_play_area e ∧ e ∉ gs.opponent_hand) ∧
    (entityInSlots gs.player_play_area e →
      ¬ entityInSlots gs.opponent_play_area e ∧ e ∉ gs.opponent_hand) ∧
    (entityInSlots gs.opponent_play_area e → e ∉ gs.opponent_hand)

/-- An entity handle absent from every container of `GameplayState`
(a freshly spawned entity). -/
def freshEntity (gs : GameplayState) (e : Nat) : Prop :=
  e ∉ gs.player_hand ∧ ¬ entityInSlots gs.player_play_area e ∧
  ¬ entityInSlots gs.opponent_play_area e ∧ e ∉ gs.opponent_hand

instance (gs : GameplayState) (e : Nat) : Decidable (freshEntity gs e) := by
  unfold freshEntity; infer_instance

/-- A concrete in-hand card centred at the origin, z = 5, 2×2 box. -/
def cHitA : GameCard :=
  { entity := 1, is_hovered := false, target_scale := 1, target_position := ⟨0, 0⟩
    pos := ⟨0, 0⟩, z := 5, scale := 1, rotation := 0, size := ⟨2, 2⟩
    inHand := some 0, dragging := none, zone := none }

/-- A second card identical to `cHitA` except for its entity handle: same
box, same z — an exact z tie under a cursor at the origin. -/
def cHitB : GameCard :=
  { cHitA with entity := 2 }

/-- A concrete in-hand card for the drag-start scenario. -/
def cDragDemo : GameCard :=
  { entity := 1, is_hovered := true, target_scale := 13 / 10, target_position := ⟨0, 0⟩
    pos := ⟨0, 0⟩, z := 110, scale := 1, rotation := 0, size := ⟨2, 2⟩
    inHand := some 0, dragging := none, zone := none }

/-- An empty gameplay state (no deck, no cards anywhere). -/
def emptyGs : GameplayState :=
  { deck := [], player_hand := [], player_play_area := List.replicate 5 none
    opponent_play_area := List.replicate 5 none, opponent_hand := [] }

/-- A concrete unoccupied player play-area slot (index 2) whose box contains
the origin. -/
def dropSlot : SlotEnt :=
  { id := 42, zone := CardZone.playerPlayArea 2, occupied := false
    pos := ⟨0, 0⟩, size := ⟨4, 4⟩ }

/-- A concrete dragging card over `dropSlot`, carrying a non-zero rotation. -/
def dropCard : GameCard :=
  { entity := 7, is_hovered := false, target_scale := 1, target_position := ⟨0, 0⟩
    pos := ⟨0, 0⟩, z := 1000, scale := 1, rotation := 3 / 10, size := ⟨2, 2⟩
    inHand := some 0, dragging := some ⟨⟨0, 0⟩, CardZone.playerHand⟩, zone := none }

/-- Concrete hand cards for layout scenarios: index 0 unhovered, index 1
hovered. -/
def handA : HandCard := ⟨0, false, false, ⟨0, 0⟩, 0⟩

def handB : HandCard := ⟨1, true, false, ⟨0, 0⟩, 0⟩

/-- The animation pass touches only `scale`, `pos` and `z`: every other field
of the card is returned unchanged. -/
theorem animScale_fields (speed dt : ℚ) (c : GameCard) :
    (animScale speed dt c).entity = c.entity ∧
    (animScale speed dt c).is_hovered = c.is_hovered ∧
    (animScale speed dt c).target_scale = c.target_scale ∧
    (animScale speed dt c).target_position = c.target_position ∧
    (animScale speed dt c).pos = c.pos ∧
    (animScale speed dt c).z = c.z ∧
    (animScale speed dt c).rotation = c.rotation ∧
    (animScale speed dt c).size = c.size ∧
    (animScale speed dt c).inHand = c.inHand ∧
    (animScale speed dt c).dragging = c.dragging ∧
    (animScale speed dt c).zone = c.zone := by
  refine ⟨?_, ?_, ?_, ?_, ?_, ?_, ?_, ?_, ?_, ?_, ?_⟩ <;> (simp only [animScale]; split <;> rfl)

theorem animPos_fields (speed dt : ℚ) (c : GameCard) :
    (animPos speed dt c).entity = c.entity ∧
    (animPos speed dt c).is_hovered = c.is_hovered ∧
    (animPos speed dt c).target_scale = c.target_scale ∧
    (animPos speed dt c).target_position = c.target_position ∧
    (animPos speed dt c).scale = c.scale ∧
    (animPos speed dt c).z = c.z ∧
    (animPos speed dt c).rotation = c.rotation ∧
    (animPos speed dt c).size = c.size ∧
    (animPos speed dt c).inHand = c.inHand ∧
    (animPos speed dt c).dragging = c.dragging ∧
    (animPos speed dt c).zone = c.zone := by
  refine ⟨?_, ?_, ?_, ?_, ?_, ?_, ?_, ?_, ?_, ?_, ?_⟩ <;> (simp only [animPos]; split <;> rfl)

theorem animZ_fields (hc : Nat) (c : GameCard) :
    (animZ hc c).entity = c.entity ∧
    (animZ hc c).is_hovered = c.is_hovered ∧
    (animZ hc c).target_scale = c.target_scale ∧
    (animZ hc c).target_position = c.target_position ∧
    (animZ hc c).scale = c.scale ∧
    (animZ hc c).pos = c.pos ∧
    (animZ hc c).rotation = c.rotation ∧
    (animZ hc c).size = c.size ∧
    (animZ hc c).inHand = c.inHand ∧
    (animZ hc c).dragging = c.dragging ∧
    (animZ hc c).zone = c.zone := by
  refine ⟨?_, ?_, ?_, ?_, ?_, ?_, ?_, ?_, ?_, ?_, ?_⟩ <;>
    (simp only [animZ]; split <;> first | rfl | (split <;> rfl))

/-- The z produced by the z block, as a case analysis on the `InHand` index. -/
theorem animZ_z (hc : Nat) (c : GameCard) :
    (c.inHand = none → (animZ hc c).z = 0) ∧
    (∀ i, c.inHand = some i → i < hc →
      (animZ hc c).z = ((hc - i : Nat) : ℚ) * 10 + (if c.is_hovered then 100 else 0)) ∧
    (∀ i, c.inHand = some i → hc ≤ i → (animZ hc c).z = c.z) := by
  refine ⟨fun hnone => ?_, fun i hin hlt => ?_, fun i hin hge => ?_⟩
  · simp only [animZ]; rw [hnone]
  · simp only [animZ]; rw [hin]; dsimp only
    rw [if_pos hlt]; dsimp only
    split <;> ring
  · simp only [animZ]; rw [hin]; dsimp only
    rw [if_neg (by omega)]

/-- C6: the per-tick z update of `card_animation_system` is total and never
underflows: a card not in the hand gets `z = 0`; a hand card with stored index
below the current hand count gets `z = (hand_count - index) * 10`, plus `100`
when hovered; a hand card whose stored index is not below the hand count
keeps its z unchanged (the truncating subtraction is never evaluated there). -/
theorem c6_z_update (speed dt : ℚ) (hc : Nat) (c : GameCard) :
    (c.inHand = none → (animStep speed dt hc c).z = 0) ∧
    (∀ i, c.inHand = some i → i < hc →
      (animStep speed dt hc c).z =
        ((hc - i : Nat) : ℚ) * 10 + (if c.is_hovered then 100 else 0)) ∧
    (∀ i, c.inHand = some i → hc ≤ i → (animStep speed dt hc c).z = c.z) := by
  obtain ⟨-, hsHov, -, -, hsPos, hsZ, -, -, hsIn, -, -⟩ := animScale_fields speed dt c
  obtain ⟨-, hpHov, -, -, -, hpZ, -, -, hpIn, -, -⟩ :=
    animPos_fields speed dt (animScale speed dt c)
  have hz := animZ_z hc (animPos speed dt (animScale speed dt c))
  have hin : (animPos speed dt (animScale speed dt c)).inHand = c.inHand :=
    hpIn.trans hsIn
  have hhov : (animPos speed dt (animScale speed dt c)).is_hovered = c.is_hovered :=
    hpHov.trans hsHov
  unfold animStep
  refine ⟨fun hnone => ?_, fun i hi hlt => ?_, fun i hi hge => ?_⟩
  · exact hz.1 (hin.trans hnone)
  · rw [hz.2.1 i (hin.trans hi) hlt, hhov]
  · exact (hz.2.2 i (hin.trans hi) hge).trans (hpZ.trans hsZ)

/-- C6 witness: a hand card at index 1 in a hand of 3, hovered, gets
`z = (3 - 1) * 10 + 100 = 120`; with a hand count of 1 (index out of range)
its z would be left unchanged. -/
theorem c6_z_update_witness :
    (animStep 5 (1 / 60) 3 { cDragDemo with inHand := some 1 }).z = 120 ∧
    (animStep 5 (1 / 60) 1 { cDragDemo with inHand := some 1 }).z = 110 := by
  constructor
  · have h := (c6_z_update 5 (1 / 60) 3 { cDragDemo with inHand := some 1 }).2.1 1
      (by simp [cDragDemo]) (by norm_num)
    rw [h]; simp [cDragDemo]; norm_num
  · have h := (c6_z_update 5 (1 / 60) 1 { cDragDemo with inHand := some 1 }).2.2 1
      (by simp [cDragDemo]) (by norm_num)
    rw [h]; simp [cDragDemo]

/-- C8 counterexample: rotation is not written only by the layout pass — the
drop handler of `card_drag_system` also writes it. Releasing the concrete
dragging card `dropCard` (rotation `0.3`) over the free slot `dropSlot`
resets its rotation to `0`. -/
theorem dropSlot_isTarget : isDropTarget emptyGs (⟨0, 0⟩ : Vec2) dropSlot = true := by
  norm_num [isDropTarget, dropSlot, emptyGs, GameplayState.is_slot_occupied, inBox,
    List.getD]

theorem releaseCard_dropCard :
    releaseCard emptyGs [dropSlot] dropCard =
      ⟨(emptyGs.remove_from_hand 7).play_card_to_slot 7 2 |>.2,
        { dropCard with
            target_position := dropSlot.pos, inHand := none, pos := ⟨0, 0⟩, z := 0,
            scale := 1, rotation := 0, zone := some (CardZone.playerPlayArea 2),
            dragging := none },
        [{ dropSlot with occupied := true }]⟩ := by
  have hfind : findDropSlot emptyGs [dropSlot] (⟨0, 0⟩ : Vec2) = some dropSlot := by
    rw [findDropSlot, List.find?_cons, dropSlot_isTarget]
  rw [releaseCard]
  simp only [dropCard]
  rw [hfind]
  rfl

theorem c8_counterexample :
    (releaseCard emptyGs [dropSlot] dropCard).card.rotation ≠ dropCard.rotation ∧
    dropCard.rotation = 3 / 10 ∧
    (releaseCard emptyGs [dropSlot] dropCard).card.rotation = 0 := by
  rw [releaseCard_dropCard]
  refine ⟨?_, rfl, rfl⟩
  norm_num [dropCard]

/-- C8 (amended): each tick, for every card, scale and x/y position move
toward their targets by `new = current + (target - current) * speed * dt`;
when the remaining distance is at or below the threshold (`0.001` for scale,
`0.1` world units for position, compared in squared form) the value is set
exactly to the target; and the animation pass never modifies rotation
(rotation is written by the layout pass and by the drop handler, not here). -/
theorem c8_amended (speed dt : ℚ) (hc : Nat) (c : GameCard) :
    (1 / 1000 < |c.target_scale - c.scale| →
      (animStep speed dt hc c).scale = c.scale + (c.target_scale - c.scale) * speed * dt) ∧
    (|c.target_scale - c.scale| ≤ 1 / 1000 →
      (animStep speed dt hc c).scale = c.target_scale) ∧
    (1 / 100 < (c.target_position.x - c.pos.x) ^ 2 + (c.target_position.y - c.pos.y) ^ 2 →
      (animStep speed dt hc c).pos =
        ⟨c.pos.x + (c.target_position.x - c.pos.x) * speed * dt,
         c.pos.y + (c.target_position.y - c.pos.y) * speed * dt⟩) ∧
    ((c.target_position.x - c.pos.x) ^ 2 + (c.target_position.y - c.pos.y) ^ 2 ≤ 1 / 100 →
      (animStep speed dt hc c).pos = c.target_position) ∧
    (animStep speed dt hc c).rotation = c.rotation := by
  obtain ⟨-, -, hsTs, hsTp, hsPos, -, hsRot, -, -, -, -⟩ := animScale_fields speed dt c
  obtain ⟨-, -, -, -, hpSc, -, hpRot, -, -, -, -⟩ :=
    animPos_fields speed dt (animScale speed dt c)
  obtain ⟨-, -, -, -, hzSc, hzPos, hzRot, -, -, -, -⟩ :=
    animZ_fields hc (animPos speed dt (animScale speed dt c))
  have hscale : (animStep speed dt hc c).scale = (animScale speed dt c).scale := by
    unfold animStep; exact hzSc.trans hpSc
  have hpos : (animStep speed dt hc c).pos = (animPos speed dt (animScale speed dt c)).pos := by
    unfold animStep; exact hzPos
  have hrot : (animStep speed dt hc c).rotation = c.rotation := by
    unfold animStep; exact hzRot.trans (hpRot.trans hsRot)
  refine ⟨fun hfar => ?_, fun hnear => ?_, fun pfar => ?_, fun pnear => ?_, hrot⟩
  · rw [hscale]; simp only [animScale]
    rw [if_pos hfar]
  · rw [hscale]; simp only [animScale]
    rw [if_neg (not_lt.mpr hnear)]
  · rw [hpos]; simp only [animPos]
    rw [hsTp, hsPos]
    rw [if_pos (by rw [← sq, ← sq]; exact pfar)]
  · rw [hpos]; simp only [animPos]
    rw [hsTp, hsPos]
    rw [if_neg (not_lt.mpr (by rw [← sq, ← sq]; exact pnear))]

/-- C8 witness: a concrete card far from its targets is eased toward them,
and its rotation is untouched. -/
theorem c8_amended_witness :
    (animStep 5 1 0 { cDragDemo with scale := 0, pos := ⟨10, 0⟩, target_scale := 1 }).scale = 0 + (1 - 0) * 5 * 1 ∧
    (animStep 5 1 0 { cDragDemo with scale := 0, pos := ⟨10, 0⟩, target_scale := 1 }).pos =
      ⟨10 + (0 - 10) * 5 * 1, 0 + (0 - 0) * 5 * 1⟩ ∧
    (animStep 5 1 0 { cDragDemo with scale := 0, pos := ⟨10, 0⟩, target_scale := 1 }).rotation = 0 := by
  have h := c8_amended 5 1 0 { cDragDemo with scale := 0, pos := ⟨10, 0⟩, target_scale := 1 }
  refine ⟨?_, ?_, ?_⟩
  · have := h.1 (by norm_num [cDragDemo])
    rw [this]
  · have := h.2.2.1 (by norm_num [cDragDemo])
    rw [this]
    norm_num [cDragDemo]
  · exact (h.2.2.2.2).trans (by norm_num [cDragDemo])

/-- The top of the fresh deck is `Card 10`. -/
theorem new_deck_top : GameplayState.new.deck.getLast? = some ⟨"Card 10"⟩ := by
  have : GameplayState.new.deck =
      (List.range 9).map (fun i => ⟨"Card " ++ toString (i + 1)⟩) ++ [⟨"Card 10"⟩] := by
    simp [GameplayState.new, List.range_succ]
    rfl
  rw [this, List.getLast?_append]
  rfl

/-- C4: clicking the deck with a non-empty deck pops exactly one card from the
top (end) of the deck, spawns it in the hand with stored index equal to the
hand count before the draw, and appends the new entity to the hand list; a
click with an empty deck leaves `GameplayState` unchanged. One draw from a
fresh 10-card state yields hand length 1, deck length 9, and a new card at
hand index 0 (named `Card 10`, the top of the deck). -/
theorem c4_deck_click (gs : GameplayState) (hc e : Nat) :
    (∀ cd, gs.deck.getLast? = some cd →
      deck_click_draw gs hc e =
        ({ gs with deck := gs.deck.dropLast, player_hand := gs.player_hand ++ [e] },
          some ⟨cd, hc, 10⟩) ∧
      (deck_click_draw gs hc e).1.deck.length + 1 = gs.deck.length) ∧
    (gs.deck = [] → deck_click_draw gs hc e = (gs, none)) ∧
    ((deck_click_draw GameplayState.new 0 e).1.player_hand.length = 1 ∧
     (deck_click_draw GameplayState.new 0 e).1.deck.length = 9 ∧
     (deck_click_draw GameplayState.new 0 e).1.player_hand = [e] ∧
     (deck_click_draw GameplayState.new 0 e).2 = some ⟨⟨"Card 10"⟩, 0, 10⟩) := by
  have key : ∀ (g : GameplayState) (h n : Nat) (cd : CardData), g.deck.getLast? = some cd →
      deck_click_draw g h n =
        ({ g with deck := g.deck.dropLast, player_hand := g.player_hand ++ [n] },
          some ⟨cd, h, 10⟩) := by
    intro g h n cd hcd
    unfold deck_click_draw GameplayState.draw_card
    rw [hcd]
    dsimp only [GameplayState.add_to_hand]
    have hz : ((h + 1 - h : Nat) : ℚ) * 10 = 10 := by
      rw [Nat.add_sub_cancel_left]; norm_num
    rw [hz]
  refine ⟨fun cd hcd => ?_, fun hnil => ?_, ?_⟩
  · refine ⟨key gs hc e cd hcd, ?_⟩
    rw [key gs hc e cd hcd]
    dsimp only
    rw [List.length_dropLast]
    have : gs.deck ≠ [] := by
      intro h; rw [h] at hcd; simp at hcd
    have : 0 < gs.deck.length := List.length_pos.mpr this
    omega
  · unfold deck_click_draw GameplayState.draw_card
    rw [hnil]
    rfl
  · rw [key GameplayState.new 0 e ⟨"Card 10"⟩ new_deck_top]
    refine ⟨rfl, ?_, rfl, rfl⟩
    simp [GameplayState.new]

/-- C4 witness: one concrete draw from the fresh state pops `Card 10`, leaves
9 cards in the deck and puts entity 3 alone in the hand at index 0. -/
theorem c4_deck_click_witness :
    deck_click_draw GameplayState.new 0 3 =
      ({ GameplayState.new with
          deck := GameplayState.new.deck.dropLast
          player_hand := [] ++ [3] }, some ⟨⟨"Card 10"⟩, 0, 10⟩) ∧
    (deck_click_draw GameplayState.new 0 3).1.deck.length + 1 =
      GameplayState.new.deck.length :=
  (c4_deck_click GameplayState.new 0 3).1 ⟨"Card 10"⟩ new_deck_top

/-- The release handler either leaves the slot list unchanged or maps over it
setting `occupied := true` on one slot id. -/
theorem releaseCard_slots_shape (gs : GameplayState) (slots : List SlotEnt) (c : GameCard) :
    (releaseCard gs slots c).slots = slots ∨
    ∃ sid, (releaseCard gs slots c).slots =
      slots.map (fun t => if t.id = sid then { t with occupied := true } else t) := by
  unfold releaseCard
  cases hd : c.dragging with
  | none => left; rfl
  | some d =>
    dsimp only
    cases hf : findDropSlot gs slots c.pos with
    | none => left; rfl
    | some s =>
      dsimp only
      cases hz : s.zone with
      | playerPlayArea k => right; exact ⟨s.id, rfl⟩
      | playerHand => left; rfl
      | opponentPlayArea k => left; rfl
      | opponentHand => left; rfl
      | bottomLeft => left; rfl
      | bottomRight => left; rfl
      | topLeft => left; rfl
      | topRight => left; rfl

/-- C10: the player play-area array is monotone within a session. The hand
operations and deck draws never touch it; `play_card_to_slot` only ever turns
an empty entry into an occupied one (never the reverse); and the release
handler never clears a slot entity's `occupied` flag. -/
theorem c10_slot_monotone (gs : GameplayState) (e s i : Nat) :
    ((gs.remove_from_hand e).player_play_area = gs.player_play_area) ∧
    ((gs.add_to_hand e).player_play_area = gs.player_play_area) ∧
    ((gs.draw_card).2.player_play_area = gs.player_play_area) ∧
    ((gs.player_play_area.getD i none).isSome = true →
      ((gs.play_card_to_slot e s).2.player_play_area.getD i none).isSome = true) ∧
    ((gs.play_card_to_slot e s).2.player_play_area.getD i none ≠
        gs.player_play_area.getD i none →
      gs.player_play_area.getD i none = none ∧
      (gs.play_card_to_slot e s).2.player_play_area.getD i none = some e) ∧
    (∀ (slots : List SlotEnt) (c : GameCard) (t t' : SlotEnt) (j : Nat),
      slots[j]? = some t → (releaseCard gs slots c).slots[j]? = some t' →
      t.occupied = true → t'.occupied = true) := by
  refine ⟨rfl, rfl, rfl, ?_, ?_, ?_⟩
  · intro hsome
    unfold GameplayState.play_card_to_slot
    split
    · next hcond =>
      dsimp only
      rw [Bool.and_eq_true] at hcond
      obtain ⟨-, hfree⟩ := hcond
      rw [List.getD_eq_getElem?_getD] at hsome ⊢
      rw [List.getElem?_set]
      by_cases hsi : s = i
      · exfalso
        rw [List.getD_eq_getElem?_getD] at hfree
        rw [hsi] at hfree
        rcases h : gs.player_play_area[i]? with _ | v
        · rw [h] at hsome; simp at hsome
        · rw [h] at hsome hfree
          simp at hsome hfree
          rw [hfree] at hsome
          simp at hsome
      · rw [if_neg hsi]
        exact hsome
    · exact hsome
  · intro hne
    unfold GameplayState.play_card_to_slot at hne ⊢
    by_cases hcond : (decide (s < 5) && (gs.player_play_area.getD s none).isNone) = true
    · rw [if_pos hcond] at hne ⊢
      dsimp only at hne ⊢
      rw [Bool.and_eq_true] at hcond
      obtain ⟨-, hfree⟩ := hcond
      rw [Option.isNone_iff_eq_none] at hfree
      by_cases hsi : s = i
      · subst hsi
        by_cases hsl : s < gs.player_play_area.length
        · refine ⟨hfree, ?_⟩
          rw [List.getD_eq_getElem?_getD, List.getElem?_set, if_pos rfl, if_pos hsl]
          rfl
        · exfalso
          apply hne
          rw [List.getD_eq_getElem?_getD, List.getElem?_set, if_pos rfl, if_neg hsl]
          rw [List.getD_eq_getElem?_getD, List.getElem?_eq_none (by omega)]
      · exfalso
        apply hne
        rw [List.getD_eq_getElem?_getD, List.getElem?_set, if_neg hsi,
          List.getD_eq_getElem?_getD]
    · rw [if_neg hcond] at hne
      exact absurd rfl hne
  · intro slots c t t' j h1 h2 hocc
    rcases releaseCard_slots_shape gs slots c with hsh | ⟨sid, hsh⟩
    · rw [hsh, h1] at h2
      injection h2 with h2
      rw [← h2]; exact hocc
    · rw [hsh, List.getElem?_map, h1] at h2
      injection h2 with h2
      rw [← h2]
      dsimp only
      split
      · rfl
      · exact hocc

/-- C10 witness: playing entity 7 to free slot 2 of the fresh state turns the
entry from `none` to `some 7`, and a release over an occupied slot list keeps
the occupied flag. -/
theorem c10_slot_monotone_witness :
    (GameplayState.new.player_play_area.getD 2 none = none ∧
      (GameplayState.new.play_card_to_slot 7 2).2.player_play_area.getD 2 none = some 7) ∧
    ({ dropSlot with occupied := true } : SlotEnt).occupied = true :=
  ⟨(c10_slot_monotone GameplayState.new 7 2 2).2.2.2.2.1 (by decide),
   (c10_slot_monotone emptyGs 0 0 0).2.2.2.2.2 [{ dropSlot with occupied := true }] cHitA
      { dropSlot with occupied := true } { dropSlot with occupied := true } 0 rfl rfl rfl⟩

/-- C9: when the window size changes by more than `0.1` in either axis, every
anchored element's position is recomputed as its corner origin (±half width,
±half height) plus its fixed offsets; in particular the 1280×720 → 1920×1080
resize is detected, and a bottom-right-anchored element (the deck and the
empty-deck placeholder) keeps the identical `(offset_x, offset_y)` offset from
the bottom-right corner before and after. -/
theorem c9_anchor_resize (old new : WindowDims) (items : List AnchoredItem) :
    (resizeDetected old new = true →
      ∀ it ∈ window_resize_system old new items,
        it.pos = anchorWorldPos new.width new.height it.anchor) ∧
    resizeDetected ⟨1280, 720⟩ ⟨1920, 1080⟩ = true ∧
    (∀ ox oy,
      (anchorWorldPos 1920 1080 (.bottomRight ox oy)).x - 1920 / 2 = ox ∧
      (anchorWorldPos 1920 1080 (.bottomRight ox oy)).y - (-(1080 / 2)) = oy ∧
      (anchorWorldPos 1280 720 (.bottomRight ox oy)).x - 1280 / 2 = ox ∧
      (anchorWorldPos 1280 720 (.bottomRight ox oy)).y - (-(720 / 2)) = oy) := by
  refine ⟨fun hdet it hit => ?_, ?_, fun ox oy => ?_⟩
  · unfold window_resize_system at hit
    rw [if_pos hdet] at hit
    obtain ⟨it₀, -, rfl⟩ := List.mem_map.mp hit
    rfl
  · unfold resizeDetected
    norm_num
  · refine ⟨?_, ?_, ?_, ?_⟩ <;> (unfold anchorWorldPos; ring)

/-- C9 witness: a deck-like bottom-right item is repositioned by the
1280×720 → 1920×1080 resize to the new corner plus its fixed offsets. -/
theorem c9_anchor_resize_witness :
    ∀ it ∈ window_resize_system ⟨1280, 720⟩ ⟨1920, 1080⟩
        [⟨AnchorPosition.bottomRight (-150) 150, ⟨490, -210⟩⟩],
      it.pos = anchorWorldPos 1920 1080 it.anchor := by
  have h := c9_anchor_resize ⟨1280, 720⟩ ⟨1920, 1080⟩
    [⟨AnchorPosition.bottomRight (-150) 150, ⟨490, -210⟩⟩]
  exact h.1 h.2.1

/-- C3: for every non-dragging hand card with stored index `i` in a hand of
count `n ≥ 1` under window height `H` — with card height `0.40·H`, width
`height·2/3`, spacing `s = 0.4·width`, arc height `a = 0.1·height`, rotation
step `r = 0.08` and hover spread `h = 0.3·width` — the layout pass sets
target X to `-(n-1)·s/2 + i·s`, shifted right by `h` if `i > j` and left by
`h` if `i < j` when a card is hovered at index `j` (the hovered card itself
does not shift); target Y to `baseline + a·(1 - u²)` with
`c = i - (n-1)/2`, `u = c / max(n/2, 1)`; and the rotation (written
immediately, not eased) to `-c·r`. -/
theorem c3_hand_layout (H : ℚ) (cards : List HandCard) (i : Nat) (hi : i < cards.length)
    (hd : (cards.getD i default).dragging = false) :
    ((hand_layout_system H cards).getD i default).target_position.x =
      -((((cards.length : ℚ) - 1) * (H * (40 / 100) * (2 / 3) * (40 / 100))) / 2) +
        ((cards.getD i default).hand_index : ℚ) * (H * (40 / 100) * (2 / 3) * (40 / 100)) +
        (match (cards.find? (fun c => c.is_hovered && !c.dragging)).map HandCard.hand_index with
         | some j =>
           if j < (cards.getD i default).hand_index then H * (40 / 100) * (2 / 3) * (30 / 100)
           else if (cards.getD i default).hand_index < j then
             -(H * (40 / 100) * (2 / 3) * (30 / 100))
           else 0
         | none => 0) ∧
    ((hand_layout_system H cards).getD i default).target_position.y =
      (-(H / 2) + H * (25 / 1000) + H * (40 / 100) / 2) +
        H * (40 / 100) * (10 / 100) *
          (1 - (((cards.getD i default).hand_index : ℚ) - ((cards.length : ℚ) - 1) / 2) /
                max ((cards.length : ℚ) / 2) 1 *
               ((((cards.getD i default).hand_index : ℚ) - ((cards.length : ℚ) - 1) / 2) /
                max ((cards.length : ℚ) / 2) 1)) ∧
    ((hand_layout_system H cards).getD i default).rotation =
      -(((cards.getD i default).hand_index : ℚ) - ((cards.length : ℚ) - 1) / 2) * (8 / 100) := by
  have hlen : ¬ cards.length = 0 := by omega
  have hmap : (hand_layout_system H cards).getD i default =
      layoutHandCard H cards.length
        ((cards.find? (fun c => c.is_hovered && !c.dragging)).map HandCard.hand_index)
        (cards.getD i default) := by
    unfold hand_layout_system
    rw [if_neg hlen]
    rw [List.getD_eq_getElem _ _ (by simpa using hi), List.getD_eq_getElem _ _ hi,
      List.getElem_map]
  rw [hmap]
  unfold layoutHandCard
  rw [if_neg (by rw [hd]; exact Bool.false_ne_true)]
  dsimp only
  refine ⟨?_, rfl, rfl⟩
  cases (cards.find? (fun c => c.is_hovered && !c.dragging)).map HandCard.hand_index with
  | none => dsimp only; ring
  | some j =>
    dsimp only
    split
    · ring
    · split <;> ring

/-- C3 witness: a two-card hand under height 100 with the hovered card at
index 1; the theorem instantiated at index 0 (shifted left by the hover
spread). -/
theorem c3_hand_layout_witness :
    ((hand_layout_system 100 [handA, handB]).getD 0 default).target_position.x =
      -(((([handA, handB].length : ℚ) - 1) * (100 * (40 / 100) * (2 / 3) * (40 / 100))) / 2) +
        (([handA, handB].getD 0 default).hand_index : ℚ) *
          (100 * (40 / 100) * (2 / 3) * (40 / 100)) +
        (match ([handA, handB].find?
            (fun c => c.is_hovered && !c.dragging)).map HandCard.hand_index with
         | some j =>
           if j < ([handA, handB].getD 0 default).hand_index then
             100 * (40 / 100) * (2 / 3) * (30 / 100)
           else if ([handA, handB].getD 0 default).hand_index < j then
             -(100 * (40 / 100) * (2 / 3) * (30 / 100))
           else 0
         | none => 0) :=
  (c3_hand_layout 100 [handA, handB] 0 (by decide) (by decide)).1

/-- `find?` returns the first match: the list splits into a prefix on which
the predicate is false, the found element, and a suffix. -/
theorem find?_first {α : Type} (p : α → Bool) :
    ∀ (l : List α) (a : α), l.find? p = some a →
      ∃ l₁ l₂, l = l₁ ++ a :: l₂ ∧ ∀ x ∈ l₁, p x = false := by
  intro l
  induction l with
  | nil => intro a h; simp at h
  | cons b t ih =>
    intro a h
    rw [List.find?_cons] at h
    cases hp : p b
    · simp only [hp] at h
      obtain ⟨l₁, l₂, rfl, hall⟩ := ih a h
      refine ⟨b :: l₁, l₂, rfl, ?_⟩
      intro x hx
      rcases List.mem_cons.mp hx with rfl | hx
      · exact hp
      · exact hall x hx
    · simp only [hp] at h
      injection h with h
      subst h
      exact ⟨[], t, rfl, by simp⟩

/-- C1: on a left-release with a dragging card, if some player play-area slot
(all of which carry indices `< 5`) is unoccupied and its box contains the
card's center, then for the first such slot in enumeration order the card is
removed from the hand list, the slot array entry becomes the card, the slot
entity's `occupied` flag becomes true, the card's zone marker becomes
`PlayerPlayArea{slot}`, its rotation is reset to 0 and its `InHand` marker is
dropped; if no such slot exists the drop is rejected and `GameplayState` and
the slot list are unchanged with the card still in hand. In both cases the
`Dragging` marker is cleared. -/
theorem c1_drop (gs : GameplayState) (slots : List SlotEnt) (c : GameCard) (d : DragInfo)
    (hdrag : c.dragging = some d)
    (hlen : gs.player_play_area.length = 5)
    (hidx : ∀ s ∈ slots, ∀ k, s.zone = CardZone.playerPlayArea k → k < 5) :
    ((∃ s ∈ slots, isDropTarget gs c.pos s = true) ↔
      (findDropSlot gs slots c.pos).isSome = true) ∧
    (∀ s k, findDropSlot gs slots c.pos = some s → s.zone = CardZone.playerPlayArea k →
      (∃ l₁ l₂, slots = l₁ ++ s :: l₂ ∧ ∀ t ∈ l₁, isDropTarget gs c.pos t = false) ∧
      (releaseCard gs slots c).gs.player_play_area.getD k none = some c.entity ∧
      c.entity ∉ (releaseCard gs slots c).gs.player_hand ∧
      (releaseCard gs slots c).card.zone = some (CardZone.playerPlayArea k) ∧
      (releaseCard gs slots c).card.rotation = 0 ∧
      (releaseCard gs slots c).card.inHand = none ∧
      (releaseCard gs slots c).card.dragging = none ∧
      (∀ t ∈ (releaseCard gs slots c).slots, t.id = s.id → t.occupied = true)) ∧
    (findDropSlot gs slots c.pos = none →
      (releaseCard gs slots c).gs = gs ∧
      (releaseCard gs slots c).card = { c with dragging := none } ∧
      (releaseCard gs slots c).slots = slots) := by
  refine ⟨?_, fun s k hfind hz => ?_, fun hnone => ?_⟩
  · unfold findDropSlot
    exact Iff.symm List.find?_isSome
  · have hmem : s ∈ slots := List.mem_of_find?_eq_some hfind
    have htgt : isDropTarget gs c.pos s = true := List.find?_some hfind
    have hk5 : k < 5 := hidx s hmem k hz
    have hfree : gs.player_play_area.getD k none = none := by
      unfold isDropTarget at htgt
      rw [hz] at htgt
      dsimp only at htgt
      rw [Bool.and_eq_true] at htgt
      have hnocc := htgt.1
      rw [Bool.not_eq_eq_eq_not, Bool.not_true] at hnocc
      unfold GameplayState.is_slot_occupied at hnocc
      rw [Bool.and_eq_false_iff] at hnocc
      rcases hnocc with hnocc | hnocc
      · rw [decide_eq_true hk5] at hnocc
        simp at hnocc
      · rcases h : gs.player_play_area.getD k none with _ | v
        · rfl
        · rw [h] at hnocc
          simp at hnocc
    have hrel : releaseCard gs slots c =
        ⟨((gs.remove_from_hand c.entity).play_card_to_slot c.entity k).2,
          { c with target_position := s.pos, inHand := none, pos := ⟨0, 0⟩, z := 0,
                   scale := 1, rotation := 0, zone := some (CardZone.playerPlayArea k),
                   dragging := none },
          slots.map (fun t => if t.id = s.id then { t with occupied := true } else t)⟩ := by
      unfold releaseCard
      rw [hdrag]
      dsimp only
      rw [hfind]
      dsimp only
      rw [hz]
    have hcond : (decide (k < 5) &&
        ((gs.remove_from_hand c.entity).player_play_area.getD k none).isNone) = true := by
      rw [Bool.and_eq_true]
      refine ⟨decide_eq_true hk5, ?_⟩
      have harea : (gs.remove_from_hand c.entity).player_play_area =
          gs.player_play_area := rfl
      rw [harea, hfree]
      rfl
    have hplay : ((gs.remove_from_hand c.entity).play_card_to_slot c.entity k).2 =
        { (gs.remove_from_hand c.entity).remove_from_hand c.entity with
          player_play_area := gs.player_play_area.set k (some c.entity) } := by
      unfold GameplayState.play_card_to_slot
      rw [if_pos hcond]
      rfl
    refine ⟨?_, ?_, ?_, ?_, ?_, ?_, ?_, ?_⟩
    · exact find?_first _ slots s hfind
    · rw [hrel]
      dsimp only
      rw [hplay]
      dsimp only
      rw [List.getD_eq_getElem?_getD, List.getElem?_set_self (by omega)]
      rfl
    · rw [hrel]
      dsimp only
      rw [hplay]
      dsimp only [GameplayState.remove_from_hand]
      intro hmem'
      rw [List.mem_filter] at hmem'
      simpa using hmem'.2
    · rw [hrel]
    · rw [hrel]
    · rw [hrel]
    · rw [hrel]
    · rw [hrel]
      dsimp only
      intro t ht hid
      obtain ⟨t₀, -, rfl⟩ := List.mem_map.mp ht
      by_cases h0 : t₀.id = s.id
      · rw [if_pos h0]
      · rw [if_neg h0] at hid ⊢
        exact absurd hid h0
  · have hrel : releaseCard gs slots c = ⟨gs, { c with dragging := none }, slots⟩ := by
      unfold releaseCard
      rw [hdrag]
      dsimp only
      rw [hnone]
    rw [hrel]
    exact ⟨rfl, rfl, rfl⟩

/-- C1 witness: dropping the concrete dragging card `dropCard` over the free
slot `dropSlot` (index 2) places entity 7 in play-area entry 2 and clears the
`Dragging` marker. -/
theorem c1_drop_witness :
    (releaseCard emptyGs [dropSlot] dropCard).gs.player_play_area.getD 2 none =
      some dropCard.entity ∧
    (releaseCard emptyGs [dropSlot] dropCard).card.dragging = none := by
  have hfind : findDropSlot emptyGs [dropSlot] dropCard.pos = some dropSlot := by
    have hpos : dropCard.pos = (⟨0, 0⟩ : Vec2) := rfl
    rw [findDropSlot, hpos, List.find?_cons, dropSlot_isTarget]
  have hidx : ∀ t ∈ [dropSlot], ∀ k, t.zone = CardZone.playerPlayArea k → k < 5 := by
    intro t ht k hk
    rw [List.mem_singleton] at ht
    subst ht
    simp [dropSlot] at hk
    omega
  have h := (c1_drop emptyGs [dropSlot] dropCard ⟨⟨0, 0⟩, CardZone.playerHand⟩ rfl
    (by decide) hidx).2.1 dropSlot 2 hfind rfl
  exact ⟨h.2.1, h.2.2.2.2.2.2.1⟩

/-- C5 counterexample: pressing on the in-hand card `cDragDemo` starts a drag
that inserts the `Dragging` component while leaving `InHand` in place — the
card is simultaneously marked as in the hand and as dragging. -/
theorem c5_counterexample :
    ((dragStart ⟨0, 0⟩ [cDragDemo]).getD 0 default).inHand = some 0 ∧
    ((dragStart ⟨0, 0⟩ [cDragDemo]).getD 0 default).dragging.isSome = true := by
  have hstep : List.foldl (handTopStep ⟨0, 0⟩) none [cDragDemo] =
      some (1, 110, (⟨0, 0⟩ : Vec2)) := by
    norm_num [handTopStep, cDragDemo, inBox, candHalfSize, List.foldl]
  unfold dragStart
  rw [hstep]
  norm_num [cDragDemo]

/-- The fresh gameplay state satisfies the container-disjointness invariant. -/
theorem containersDisjoint_new : containersDisjoint GameplayState.new := by
  intro e
  refine ⟨fun h => absurd h (List.not_mem_nil e), fun h => ?_, fun h => ?_⟩ <;>
    simp [entityInSlots, GameplayState.new, List.mem_replicate] at h

/-- C5 (amended): an entity handle appears in at most one of the hand lists
and the two slot arrays of `GameplayState`, and this disjointness is preserved
by every state operation the systems perform (hand removal, appending a fresh
entity, drawing, and playing an in-hand card to a slot). The Hand and
Dragging markers, however, are not mutually exclusive: starting a drag leaves
every card's `InHand` component exactly as it was, so a dragged card stays
marked as in the hand until a successful drop. -/
theorem c5_amended :
    (∀ (p : Vec2) (cards : List GameCard) (i : Nat),
      ((dragStart p cards).getD i default).inHand = (cards.getD i default).inHand) ∧
    (∀ gs e, containersDisjoint gs → containersDisjoint (gs.remove_from_hand e)) ∧
    (∀ gs e, containersDisjoint gs → freshEntity gs e →
      containersDisjoint (gs.add_to_hand e)) ∧
    (∀ gs, containersDisjoint gs → containersDisjoint (gs.draw_card).2) ∧
    (∀ gs e s, containersDisjoint gs → e ∈ gs.player_hand →
      containersDisjoint (gs.play_card_to_slot e s).2) := by
  refine ⟨fun p cards i => ?_, fun gs e hdisj e' => ?_, fun gs e hdisj hfresh e' => ?_,
    fun gs hdisj => hdisj, fun gs e s hdisj hmem e' => ?_⟩
  · unfold dragStart
    cases hf : List.foldl (handTopStep p) none cards with
    | none => rfl
    | some trip =>
      obtain ⟨e, z, cpos⟩ := trip
      dsimp only
      by_cases hi : i < cards.length
      · rw [List.getD_eq_getElem _ _ (by simpa using hi), List.getD_eq_getElem _ _ hi,
          List.getElem_map]
        split <;> rfl
      · rw [List.getD_eq_getElem?_getD, List.getD_eq_getElem?_getD,
          List.getElem?_eq_none (by simpa using le_of_not_lt hi),
          List.getElem?_eq_none (le_of_not_lt hi)]
  · obtain ⟨h1, h2, h3⟩ := hdisj e'
    exact ⟨fun hm => h1 (List.mem_filter.mp hm).1, h2, h3⟩
  · obtain ⟨h1, h2, h3⟩ := hdisj e'
    refine ⟨fun hm => ?_, h2, h3⟩
    rcases List.mem_append.mp hm with hm | hm
    · exact h1 hm
    · rw [List.mem_singleton] at hm
      subst hm
      exact ⟨hfresh.2.1, hfresh.2.2.1, hfresh.2.2.2⟩
  · unfold GameplayState.play_card_to_slot
    by_cases hcond : (decide (s < 5) && (gs.player_play_area.getD s none).isNone) = true
    · rw [if_pos hcond]
      obtain ⟨h1, h2, h3⟩ := hdisj e'
      refine ⟨fun hm => ?_, fun hs => ?_, h3⟩
      · have hm' := List.mem_filter.mp hm
        have hne : e' ≠ e := by simpa using hm'.2
        obtain ⟨g1, g2, g3⟩ := h1 hm'.1
        refine ⟨fun hs => ?_, g2, g3⟩
        rw [entityInSlots] at hs
        rcases List.mem_or_eq_of_mem_set hs with hs | hs
        · exact g1 hs
        · exact hne (by injection hs)
      · rw [entityInSlots] at hs
        rcases List.mem_or_eq_of_mem_set hs with hs | hs
        · exact h2 hs
        · have : e' = e := by injection hs
          subst this
          obtain ⟨-, g2, g3⟩ := h1 hmem
          exact ⟨g2, g3⟩
    · rw [if_neg hcond]
      exact hdisj e'

/-- C5 witness: drag start on the demo card leaves `InHand` unchanged, and the
invariant survives a draw-append followed by playing that card to slot 2. -/
theorem c5_amended_witness :
    ((dragStart ⟨0, 0⟩ [cDragDemo]).getD 0 default).inHand =
      ([cDragDemo].getD 0 default).inHand ∧
    containersDisjoint ((GameplayState.new.add_to_hand 7).play_card_to_slot 7 2).2 := by
  refine ⟨c5_amended.1 ⟨0, 0⟩ [cDragDemo] 0, ?_⟩
  have h1 : containersDisjoint (GameplayState.new.add_to_hand 7) :=
    c5_amended.2.2.1 GameplayState.new 7 containersDisjoint_new (by decide)
  exact c5_amended.2.2.2.2 (GameplayState.new.add_to_hand 7) 7 2 h1 (by decide)

/-- An ineligible card (dragging, or box missing the cursor) leaves the
hit-test accumulator unchanged. -/
theorem hitStep_not_elig (p : Vec2) (acc : Option (Nat × ℚ)) (b : GameCard)
    (h : ¬ hitElig p b) : hitStep p acc b = acc := by
  unfold hitStep
  cases hbd : b.dragging with
  | some d => rw [if_pos (show (some d).isSome = true from rfl)]
  | none =>
    rw [if_neg (by simp)]
    have hib : ¬ inBox p b.pos (candHalfSize b) = true := fun hib =>
      h ⟨by rw [hbd]; rfl, hib⟩
    rw [if_neg hib]

/-- An eligible card updates the accumulator per the source's comparison:
fill an empty accumulator, replace on strictly greater z, otherwise keep. -/
theorem hitStep_elig (p : Vec2) (acc : Option (Nat × ℚ)) (b : GameCard)
    (h : hitElig p b) :
    hitStep p acc b =
      match acc with
      | none => some (b.entity, b.z)
      | some (e₀, z₀) => if z₀ < b.z then some (b.entity, b.z) else some (e₀, z₀) := by
  obtain ⟨h1, h2⟩ := h
  unfold hitStep
  rw [if_neg (by rw [Option.isNone_iff_eq_none] at h1; rw [h1]; simp), if_pos h2]

/-- If the hit-test fold comes back empty, the accumulator was empty and no
card in the list was eligible. -/
theorem hitfold_none (p : Vec2) :
    ∀ (l : List GameCard) (acc : Option (Nat × ℚ)),
      l.foldl (hitStep p) acc = none → acc = none ∧ ∀ c ∈ l, ¬ hitElig p c := by
  intro l
  induction l with
  | nil => intro acc h; exact ⟨h, by simp⟩
  | cons b t ih =>
    intro acc h
    rw [List.foldl_cons] at h
    obtain ⟨hstep, hall⟩ := ih _ h
    by_cases helig : hitElig p b
    · exfalso
      rw [hitStep_elig p acc b helig] at hstep
      cases acc with
      | none => simp at hstep
      | some pair =>
        obtain ⟨e₀, z₀⟩ := pair
        dsimp only at hstep
        split at hstep <;> simp at hstep
    · rw [hitStep_not_elig p acc b helig] at hstep
      refine ⟨hstep, fun c hc => ?_⟩
      rcases List.mem_cons.mp hc with rfl | hc
      · exact helig
      · exact hall c hc

/-- The invariant of the hit-test fold: a `some (e, z)` result is either the
surviving accumulator, dominating every eligible card of the list, or comes
from a decomposition `l₁ ++ c :: l₂` where `c` is eligible with entity `e`
and z `z`, every eligible card before it (and the accumulator) has strictly
smaller z, and every eligible card after it has z at most `z` — i.e. the
first maximum wins. -/
theorem hitfold_invariant (p : Vec2) :
    ∀ (l : List GameCard) (acc : Option (Nat × ℚ)) (e : Nat) (z : ℚ),
      l.foldl (hitStep p) acc = some (e, z) →
      (acc = some (e, z) ∧ ∀ c ∈ l, hitElig p c → c.z ≤ z) ∨
      (∃ l₁ c l₂, l = l₁ ++ c :: l₂ ∧ hitElig p c ∧ c.entity = e ∧ c.z = z ∧
        (∀ e₀ z₀, acc = some (e₀, z₀) → z₀ < z) ∧
        (∀ c' ∈ l₁, hitElig p c' → c'.z < z) ∧
        (∀ c' ∈ l₂, hitElig p c' → c'.z ≤ z)) := by
  intro l
  induction l with
  | nil =>
    intro acc e z h
    rw [List.foldl_nil] at h
    exact Or.inl ⟨h, by simp⟩
  | cons b t ih =>
    intro acc e z h
    rw [List.foldl_cons] at h
    by_cases helig : hitElig p b
    · rw [hitStep_elig p acc b helig] at h
      cases hacc : acc with
      | none =>
        subst hacc
        dsimp only at h
        rcases ih _ e z h with ⟨heq, hall⟩ | ⟨l₁, c, l₂, hsplit, hc, he, hz, haccz, hl₁, hl₂⟩
        · have hpair : b.entity = e ∧ b.z = z := by
            injection heq with heq
            exact Prod.mk.inj heq
          right
          refine ⟨[], b, t, rfl, helig, hpair.1, hpair.2, ?_, by simp, hall⟩
          intro e₀ z₀ habs
          exact absurd habs (by simp)
        · right
          refine ⟨b :: l₁, c, l₂, by rw [hsplit]; rfl, hc, he, hz, ?_, ?_, hl₂⟩
          · intro e₀ z₀ habs
            exact absurd habs (by simp)
          · intro c' hc' helig'
            rcases List.mem_cons.mp hc' with rfl | hc'
            · exact haccz c'.entity c'.z rfl
            · exact hl₁ c' hc' helig'
      | some pair =>
        obtain ⟨e₀, z₀⟩ := pair
        subst hacc
        dsimp only at h
        by_cases hz0 : z₀ < b.z
        · rw [if_pos hz0] at h
          rcases ih _ e z h with ⟨heq, hall⟩ | ⟨l₁, c, l₂, hsplit, hc, he, hz, haccz, hl₁, hl₂⟩
          · have hpair : b.entity = e ∧ b.z = z := by
              injection heq with heq
              exact Prod.mk.inj heq
            right
            refine ⟨[], b, t, rfl, helig, hpair.1, hpair.2, ?_, by simp, hall⟩
            intro e₁ z₁ habs
            injection habs with habs
            obtain ⟨-, hz₁⟩ := Prod.mk.inj habs
            rw [← hz₁, ← hpair.2]
            exact hz0
          · right
            have hbz : b.z < z := haccz b.entity b.z rfl
            refine ⟨b :: l₁, c, l₂, by rw [hsplit]; rfl, hc, he, hz, ?_, ?_, hl₂⟩
            · intro e₁ z₁ habs
              injection habs with habs
              obtain ⟨-, hz₁⟩ := Prod.mk.inj habs
              rw [← hz₁]
              exact lt_trans hz0 hbz
            · intro c' hc' helig'
              rcases List.mem_cons.mp hc' with rfl | hc'
              · exact hbz
              · exact hl₁ c' hc' helig'
        · rw [if_neg hz0] at h
          rcases ih _ e z h with ⟨heq, hall⟩ | ⟨l₁, c, l₂, hsplit, hc, he, hz, haccz, hl₁, hl₂⟩
          · left
            have hpair : e₀ = e ∧ z₀ = z := by
              injection heq with heq
              exact Prod.mk.inj heq
            refine ⟨by rw [hpair.1, hpair.2], fun c' hc' helig' => ?_⟩
            rcases List.mem_cons.mp hc' with rfl | hc'
            · rw [← hpair.2]
              exact le_of_not_lt hz0
            · exact hall c' hc' helig'
          · right
            have hz₀z : z₀ < z := haccz e₀ z₀ rfl
            refine ⟨b :: l₁, c, l₂, by rw [hsplit]; rfl, hc, he, hz, ?_, ?_, hl₂⟩
            · intro e₁ z₁ habs
              injection habs with habs
              obtain ⟨-, hz₁⟩ := Prod.mk.inj habs
              rw [← hz₁]
              exact hz₀z
            · intro c' hc' helig'
              rcases List.mem_cons.mp hc' with rfl | hc'
              · exact lt_of_le_of_lt (le_of_not_lt hz0) hz₀z
              · exact hl₁ c' hc' helig'
    · rw [hitStep_not_elig p acc b helig] at h
      rcases ih _ e z h with ⟨heq, hall⟩ | ⟨l₁, c, l₂, hsplit, hc, he, hz, haccz, hl₁, hl₂⟩
      · left
        refine ⟨heq, fun c' hc' helig' => ?_⟩
        rcases List.mem_cons.mp hc' with rfl | hc'
        · exact absurd helig' helig
        · exact hall c' hc' helig'
      · right
        refine ⟨b :: l₁, c, l₂, by rw [hsplit]; rfl, hc, he, hz, haccz, ?_, hl₂⟩
        intro c' hc' helig'
        rcases List.mem_cons.mp hc' with rfl | hc'
        · exact absurd helig' helig
        · exact hl₁ c' hc' helig'

/-- The hover flag after the update loop: dragging cards keep their flag,
others get exactly "the topmost entity is mine". -/
theorem updateHoverCard_is_hovered (hs : ℚ) (top : Option (Nat × ℚ)) (c : GameCard) :
    (updateHoverCard hs top c).is_hovered =
      if c.dragging.isSome then c.is_hovered
      else
        match top with
        | some (e, _) => e == c.entity
        | none => false := by
  unfold updateHoverCard
  by_cases hd : c.dragging.isSome = true
  · rw [if_pos hd, if_pos hd]
  · rw [if_neg hd, if_neg hd]
    dsimp only
    split
    · rfl
    · next hne =>
      rw [Bool.not_eq_true, bne_eq_false_iff_eq] at hne
      exact hne.symm

/-- The hover update never changes a card's entity or z. -/
theorem updateHoverCard_preserves (hs : ℚ) (top : Option (Nat × ℚ)) (c : GameCard) :
    (updateHoverCard hs top c).z = c.z ∧
    (updateHoverCard hs top c).entity = c.entity ∧
    (updateHoverCard hs top c).dragging = c.dragging := by
  unfold updateHoverCard
  split
  · exact ⟨rfl, rfl, rfl⟩
  · dsimp only
    split
    · exact ⟨rfl, rfl, rfl⟩
    · exact ⟨rfl, rfl, rfl⟩

/-- C2 counterexample: two overlapping non-dragging cards with equal z under
the cursor — the hit test picks the first-seen candidate (`cHitA`,
entity 1), not the last-seen one (`cHitB`, entity 2), refuting the claimed
last-seen tie-break. -/
theorem c2_counterexample :
    hitElig ⟨0, 0⟩ cHitA ∧ hitElig ⟨0, 0⟩ cHitB ∧ cHitA.z = cHitB.z ∧
    cHitA.entity ≠ cHitB.entity ∧
    topmostCard (some ⟨0, 0⟩) [cHitA, cHitB] = some (cHitA.entity, cHitA.z) ∧
    topmostCard (some ⟨0, 0⟩) [cHitA, cHitB] ≠ some (cHitB.entity, cHitB.z) := by
  have hA : hitElig ⟨0, 0⟩ cHitA := ⟨rfl, by norm_num [inBox, cHitA, candHalfSize]⟩
  have hB : hitElig ⟨0, 0⟩ cHitB := ⟨rfl, by norm_num [inBox, cHitB, cHitA, candHalfSize]⟩
  have h1 : hitStep ⟨0, 0⟩ none cHitA = some (1, 5) := by
    rw [hitStep_elig _ _ _ hA]
    rfl
  have h2 : hitStep ⟨0, 0⟩ (some (1, 5)) cHitB = some (1, 5) := by
    rw [hitStep_elig _ _ _ hB]
    norm_num [cHitB, cHitA]
  have htop : topmostCard (some ⟨0, 0⟩) [cHitA, cHitB] = some (1, 5) := by
    show [cHitA, cHitB].foldl (hitStep ⟨0, 0⟩) none = some (1, 5)
    rw [List.foldl_cons, h1, List.foldl_cons, h2, List.foldl_nil]
  refine ⟨hA, hB, rfl, by norm_num [cHitA, cHitB], htop, ?_⟩
  rw [htop]
  intro habs
  injection habs with habs
  obtain ⟨he, -⟩ := Prod.mk.inj habs
  exact absurd he (by norm_num [cHitB, cHitA])

/-- C2 (amended): with no pointer there is no hover candidate; with a pointer,
the hit test returns the eligible (non-dragging, box-containing) candidate
with the greatest z, ties broken in favor of the first-seen candidate in
iteration order (every eligible candidate seen earlier has strictly smaller
z); and among overlapping non-dragging candidates with pairwise-distinct
entities, exactly one card leaves the tick with `is_hovered = true`, and its
z is greatest. -/
theorem c2_amended (hover_scale : ℚ) (cards : List GameCard) :
    topmostCard none cards = none ∧
    (∀ (p : Vec2) (e : Nat) (z : ℚ), topmostCard (some p) cards = some (e, z) →
      ∃ l₁ c l₂, cards = l₁ ++ c :: l₂ ∧ hitElig p c ∧ c.entity = e ∧ c.z = z ∧
        (∀ c' ∈ l₁, hitElig p c' → c'.z < z) ∧
        (∀ c' ∈ cards, hitElig p c' → c'.z ≤ z)) ∧
    (∀ p : Vec2, (∀ c ∈ cards, hitElig p c) → cards ≠ [] →
      (cards.map GameCard.entity).Nodup →
      (card_hover_system hover_scale (some p) cards).countP (fun c => c.is_hovered) = 1 ∧
      (∀ c' ∈ card_hover_system hover_scale (some p) cards, c'.is_hovered = true →
        ∀ c'' ∈ cards, c''.z ≤ c'.z)) := by
  refine ⟨rfl, fun p e z htop => ?_, fun p hall hne hnodup => ?_⟩
  · have htop' : cards.foldl (hitStep p) none = some (e, z) := htop
    rcases hitfold_invariant p cards none e z htop' with ⟨habs, -⟩ |
      ⟨l₁, c, l₂, hsplit, hc, he, hz, -, hl₁, hl₂⟩
    · exact absurd habs (by simp)
    · refine ⟨l₁, c, l₂, hsplit, hc, he, hz, hl₁, ?_⟩
      subst hsplit
      intro c' hc' helig'
      rcases List.mem_append.mp hc' with h | h
      · exact le_of_lt (hl₁ c' h helig')
      · rcases List.mem_cons.mp h with rfl | h
        · exact le_of_eq hz
        · exact hl₂ c' h helig'
  · cases htop : cards.foldl (hitStep p) none with
    | none =>
      exfalso
      obtain ⟨c₀, hc₀⟩ := List.exists_mem_of_ne_nil cards hne
      exact (hitfold_none p cards none htop).2 c₀ hc₀ (hall c₀ hc₀)
    | some pair =>
      obtain ⟨e, z⟩ := pair
      rcases hitfold_invariant p cards none e z htop with ⟨habs, -⟩ |
        ⟨l₁, cstar, l₂, hsplit, hcs, hes, hzs, -, hl₁, hl₂⟩
      · exact absurd habs (by simp)
      have hmax : ∀ c' ∈ cards, c'.z ≤ z := by
        intro c' hc'
        rw [hsplit] at hc'
        rcases List.mem_append.mp hc' with h | h
        · exact le_of_lt (hl₁ c' h (hall c' (by rw [hsplit]; exact List.mem_append_left _ h)))
        · rcases List.mem_cons.mp h with rfl | h
          · exact le_of_eq hzs
          · exact hl₂ c' h (hall c' (by
              rw [hsplit]
              exact List.mem_append_right _ (List.mem_cons_of_mem _ h)))
      have hmemstar : cstar ∈ cards := by
        rw [hsplit]
        exact List.mem_append_right _ (List.mem_cons_self _ _)
      have hsys : card_hover_system hover_scale (some p) cards =
          cards.map (updateHoverCard hover_scale (some (e, z))) := by
        unfold card_hover_system
        have : topmostCard (some p) cards = some (e, z) := htop
        rw [this]
      have hflag : ∀ c₀ ∈ cards,
          (updateHoverCard hover_scale (some (e, z)) c₀).is_hovered = (e == c₀.entity) := by
        intro c₀ hc₀
        rw [updateHoverCard_is_hovered]
        have hd : c₀.dragging.isSome = false := by
          have := (hall c₀ hc₀).1
          rw [Option.isNone_iff_eq_none] at this
          rw [this]
          rfl
        rw [hd]
        simp
      constructor
      · rw [hsys, List.countP_map]
        have hcong : (cards.countP ((fun c => c.is_hovered) ∘
            updateHoverCard hover_scale (some (e, z)))) =
            cards.countP (fun c => c.entity == e) := by
          apply List.countP_congr
          intro c₀ hc₀
          dsimp only [Function.comp]
          rw [hflag c₀ hc₀]
          rw [beq_iff_eq, beq_iff_eq]
          exact eq_comm
        have hmc : (cards.map GameCard.entity).countP (fun x => x == e) =
            cards.countP (fun c => c.entity == e) := List.countP_map _ _ _
        rw [hcong, ← hmc, ← List.count_eq_countP]
        apply List.count_eq_one_of_mem hnodup
        rw [← hes]
        exact List.mem_map_of_mem GameCard.entity hmemstar
      · intro c' hc' hhov c'' hc''
        rw [hsys] at hc'
        obtain ⟨c₀, hc₀, rfl⟩ := List.mem_map.mp hc'
        have hze := updateHoverCard_preserves hover_scale (some (e, z)) c₀
        rw [hze.1]
        rw [hflag c₀ hc₀] at hhov
        rw [beq_iff_eq] at hhov
        have : c₀ = cstar :=
          List.inj_on_of_nodup_map hnodup hc₀ hmemstar (by rw [← hhov, hes])
        rw [this, hzs]
        exact hmax c'' hc''

/-- C2 witness: with a single eligible card under the cursor, exactly one card
of the output is hovered. -/
theorem c2_amended_witness :
    (card_hover_system (13 / 10) (some ⟨0, 0⟩) [cHitA]).countP (fun c => c.is_hovered) = 1 :=
  ((c2_amended (13 / 10) [cHitA]).2.2 ⟨0, 0⟩
    (by
      intro c hc
      rw [List.mem_singleton] at hc
      subst hc
      exact ⟨rfl, by norm_num [inBox, cHitA, candHalfSize]⟩)
    (by simp) (by simp)).1

